import Mathlib

/-!
Verification development for the muffin full-range AMM prototype
(src/muffin_fullrange.py).

Modelling choices:
* numpy float arrays are modelled as lists of rationals; arithmetic is exact
  field arithmetic on ℚ.
* a numpy vectorized expression of length n becomes an index-wise list
  construction over List.range n; boolean-mask selection and np.sum over a
  mask become a filtered sum over Finset.range.
* python assert is modelled with Option: the function returns none exactly
  when the assert fires.
* division follows the Lean convention (x / 0 = 0); every theorem that
  depends on a divisor being nonzero carries the positivity hypotheses under
  which the model agrees with the source.
-/

namespace Muffin

/-- Masked sum: models np.sum(xs[mask]) for a boolean mask array. -/
def sumMasked (mask : List Bool) (xs : List ℚ) : ℚ :=
  ∑ i in (Finset.range xs.length).filter (fun i => mask.getD i false = true), xs.getD i 0

/-- One pass of the Lagrange-multiplier allocation, modelling the line
amts[mask] = (lsg[mask] * (amount + np.sum(res[mask])) / np.sum(lsg[mask])) - res[mask]
of _calc_tier_amts_in; entries outside the mask are the zeros that the final
statement amts[~mask] = 0 writes. -/
def computeAmts (amount : ℚ) (ws rs : List ℚ) (mask : List Bool) : List ℚ :=
  (List.range ws.length).map (fun i =>
    if mask.getD i false then
      ws.getD i 0 * (amount + sumMasked mask rs) / sumMasked mask ws - rs.getD i 0
    else 0)

/-- Models the loop guard np.all(amts[mask] >= 0). -/
def allNonneg (mask : List Bool) (amts : List ℚ) : Bool :=
  decide (∀ i, i < amts.length → mask.getD i false = true → 0 ≤ amts.getD i 0)

/-- Models the statement mask &= amts >= 0. -/
def pruneMask (mask : List Bool) (amts : List ℚ) : List Bool :=
  (List.range mask.length).map (fun i => mask.getD i false && decide (0 ≤ amts.getD i 0))

/-- Number of active tiers: the size of the set selected by the mask. -/
def maskCard (mask : List Bool) : Nat :=
  ((Finset.range mask.length).filter (fun i => mask.getD i false = true)).card

lemma getD_map_range {α : Type} (n : Nat) (f : Nat → α) (i : Nat) (d : α) :
    ((List.range n).map f).getD i d = if i < n then f i else d := by
  rcases lt_or_le i n with h | h
  · rw [List.getD_eq_getElem?_getD, List.getElem?_map, List.getElem?_range h]
    simp [h]
  · rw [List.getD_eq_default]
    · simp [Nat.not_lt.mpr h]
    · simpa using h

lemma lt_length_of_getD_true (mask : List Bool) (i : Nat) (h : mask.getD i false = true) :
    i < mask.length := by
  by_contra hc
  rw [List.getD_eq_default _ _ (Nat.le_of_not_lt hc)] at h
  exact Bool.false_ne_true h

lemma allNonneg_eq_false_iff (mask : List Bool) (amts : List ℚ) :
    allNonneg mask amts = false ↔
      ∃ i, i < amts.length ∧ mask.getD i false = true ∧ amts.getD i 0 < 0 := by
  unfold allNonneg
  rw [decide_eq_false_iff_not]
  push_neg
  simp only [exists_prop]

lemma allNonneg_eq_true_iff (mask : List Bool) (amts : List ℚ) :
    allNonneg mask amts = true ↔
      ∀ i, i < amts.length → mask.getD i false = true → 0 ≤ amts.getD i 0 := by
  unfold allNonneg
  rw [decide_eq_true_eq]

lemma pruneMask_length (mask : List Bool) (amts : List ℚ) :
    (pruneMask mask amts).length = mask.length := by
  simp [pruneMask]

lemma pruneMask_getD (mask : List Bool) (amts : List ℚ) (i : Nat) :
    (pruneMask mask amts).getD i false =
      if i < mask.length then mask.getD i false && decide (0 ≤ amts.getD i 0) else false := by
  rw [pruneMask, getD_map_range]

/-- The feasibility-repair loop strictly shrinks the active set on every
non-terminal iteration. -/
lemma maskCard_pruneMask_lt (mask : List Bool) (amts : List ℚ)
    (h : allNonneg mask amts = false) : maskCard (pruneMask mask amts) < maskCard mask := by
  obtain ⟨i, hi, hm, hneg⟩ := (allNonneg_eq_false_iff mask amts).mp h
  have him : i < mask.length := lt_length_of_getD_true mask i hm
  unfold maskCard
  rw [pruneMask_length]
  refine Finset.card_lt_card ⟨?_, ?_⟩
  · intro j hj
    rw [Finset.mem_filter] at hj ⊢
    refine ⟨hj.1, ?_⟩
    have hj2 := hj.2
    rw [pruneMask_getD] at hj2
    rcases Nat.lt_or_ge j mask.length with hjl | hjl
    · rw [if_pos hjl, Bool.and_eq_true] at hj2
      exact hj2.1
    · rw [if_neg (Nat.not_lt.mpr hjl)] at hj2
      exact absurd hj2 Bool.false_ne_true
  · intro hsub
    have hiS : i ∈ (Finset.range mask.length).filter (fun j => mask.getD j false = true) :=
      Finset.mem_filter.mpr ⟨Finset.mem_range.mpr him, hm⟩
    have hiS' := hsub hiS
    rw [Finset.mem_filter, pruneMask_getD, if_pos him, hm, Bool.true_and,
      decide_eq_true_eq] at hiS'
    exact absurd hiS'.2 (not_le.mpr hneg)

/-- The while-True feasibility-repair loop of _calc_tier_amts_in: recompute
the closed-form allocation on the active set, stop when all active
allocations are non-negative, otherwise drop the negative tiers and repeat.
Termination is exactly the strict shrinking of the active set. -/
def calcLoop (amount : ℚ) (ws rs : List ℚ) (mask : List Bool) : List ℚ × List Bool :=
  if allNonneg mask (computeAmts amount ws rs mask) then
    (computeAmts amount ws rs mask, mask)
  else
    calcLoop amount ws rs (pruneMask mask (computeAmts amount ws rs mask))
termination_by maskCard mask
decreasing_by
  rename_i h
  exact maskCard_pruneMask_lt _ _ (Bool.eq_false_iff.mpr h)

/-- Iteration counter for the same loop: how many times the loop body of
_calc_tier_amts_in executes before the break. -/
def calcLoopCount (amount : ℚ) (ws rs : List ℚ) (mask : List Bool) : Nat :=
  if allNonneg mask (computeAmts amount ws rs mask) then 1
  else 1 + calcLoopCount amount ws rs (pruneMask mask (computeAmts amount ws rs mask))
termination_by maskCard mask
decreasing_by
  rename_i h
  exact maskCard_pruneMask_lt _ _ (Bool.eq_false_iff.mpr h)

/-- Pool state: the per-tier arrays of muffin_fullrange.Pool. -/
structure Pool where
  liquidity_arr : List ℚ
  sqrt_p_arr : List ℚ
  sqrt_gamma_arr : List ℚ
  fee0_growth_arr : List ℚ
  fee1_growth_arr : List ℚ

/-- self.size = len(liquidity_arr). -/
def Pool.size (p : Pool) : Nat := p.liquidity_arr.length

/-- Pool.__init__: no validation is performed; sqrt price and fee growth
arrays take the length of the liquidity array, prices start uniform and fee
growth starts at zero. -/
def Pool.init (liquidity_arr sqrt_gamma_arr : List ℚ) (sqrt_p : ℚ) : Pool where
  liquidity_arr := liquidity_arr
  sqrt_p_arr := List.replicate liquidity_arr.length sqrt_p
  sqrt_gamma_arr := sqrt_gamma_arr
  fee0_growth_arr := List.replicate liquidity_arr.length 0
  fee1_growth_arr := List.replicate liquidity_arr.length 0

/-- lsg = liquidity_arr / sqrt_gamma_arr (elementwise). -/
def Pool.lsg (p : Pool) : List ℚ :=
  (List.range p.size).map (fun i => p.liquidity_arr.getD i 0 / p.sqrt_gamma_arr.getD i 0)

/-- res = (liquidity / sqrt_p) / gamma when selling token0, else
(liquidity * sqrt_p) / gamma, with gamma = sqrt_gamma ** 2 (elementwise). -/
def Pool.res (p : Pool) (is_token0 : Bool) : List ℚ :=
  (List.range p.size).map (fun i =>
    if is_token0 then
      (p.liquidity_arr.getD i 0 / p.sqrt_p_arr.getD i 0) / (p.sqrt_gamma_arr.getD i 0) ^ 2
    else
      (p.liquidity_arr.getD i 0 * p.sqrt_p_arr.getD i 0) / (p.sqrt_gamma_arr.getD i 0) ^ 2)

/-- _calc_tier_amts_in: the assert amount >= 0 is modelled by Option, the
loop by calcLoop starting from the all-true mask np.full(size, True). -/
def Pool.calc_tier_amts_in (p : Pool) (is_token0 : Bool) (amount : ℚ) :
    Option (List ℚ × List Bool) :=
  if 0 ≤ amount then
    some (calcLoop amount p.lsg (p.res is_token0) (List.replicate p.size true))
  else none

/-- calc_sqrt_p_from_amt from the source, verbatim. -/
def calc_sqrt_p_from_amt (is_token0 : Bool) (sqrt_p0 liquidity amt : ℚ) : ℚ :=
  if is_token0 then (liquidity * sqrt_p0) / (liquidity + amt * sqrt_p0)
  else sqrt_p0 + amt / liquidity

/-- calc_amt_from_sqrt_p from the source, verbatim. -/
def calc_amt_from_sqrt_p (is_token0 : Bool) (sqrt_p0 sqrt_p1 liquidity : ℚ) : ℚ :=
  if is_token0 then liquidity * (sqrt_p0 - sqrt_p1) / (sqrt_p0 * sqrt_p1)
  else liquidity * (sqrt_p1 - sqrt_p0)

/-- The dict returned by Pool.swap. -/
structure SwapResult where
  amt_in : ℚ
  amt_out : ℚ
  fee_amt : ℚ
  fee_bps : ℚ
  amts_in : List ℚ
  amts_out : List ℚ
  fee_amts : List ℚ

/-- gamma entry i: (sqrt_gamma_arr ** 2) at index i. -/
def Pool.gammaD (p : Pool) (i : Nat) : ℚ := (p.sqrt_gamma_arr.getD i 0) ^ 2

/-- amts_in_after_fee: np.zeros(size), then
amts_in_after_fee[mask] = amts_in[mask] * gamma[mask]. -/
def amtsInAfterFee (p : Pool) (amts_in : List ℚ) (mask : List Bool) : List ℚ :=
  (List.range p.size).map (fun i =>
    if mask.getD i false then amts_in.getD i 0 * p.gammaD i else 0)

/-- sqrt_p_new: np.zeros(size), then the masked entries get
calc_sqrt_p_from_amt applied to the fee-reduced input. -/
def sqrtPNew (p : Pool) (is_token0 : Bool) (amts_in : List ℚ) (mask : List Bool) : List ℚ :=
  (List.range p.size).map (fun i =>
    if mask.getD i false then
      calc_sqrt_p_from_amt is_token0 (p.sqrt_p_arr.getD i 0) (p.liquidity_arr.getD i 0)
        ((amtsInAfterFee p amts_in mask).getD i 0)
    else 0)

/-- amts_out: np.zeros(size), then the masked entries get
calc_amt_from_sqrt_p with the opposite token direction. -/
def amtsOut (p : Pool) (is_token0 : Bool) (amts_in : List ℚ) (mask : List Bool) : List ℚ :=
  (List.range p.size).map (fun i =>
    if mask.getD i false then
      calc_amt_from_sqrt_p (!is_token0) (p.sqrt_p_arr.getD i 0)
        ((sqrtPNew p is_token0 amts_in mask).getD i 0) (p.liquidity_arr.getD i 0)
    else 0)

/-- fee_amts: np.zeros(size), then fee_amts[mask] = amts_in[mask] - amts_in_after_fee[mask]. -/
def feeAmts (p : Pool) (amts_in : List ℚ) (mask : List Bool) : List ℚ :=
  (List.range p.size).map (fun i =>
    if mask.getD i false then amts_in.getD i 0 - (amtsInAfterFee p amts_in mask).getD i 0
    else 0)

/-- The sqrt price state write: self.sqrt_p_arr[mask] = sqrt_p_new[mask]. -/
def sqrtPUpd (p : Pool) (is_token0 : Bool) (amts_in : List ℚ) (mask : List Bool) : List ℚ :=
  (List.range p.size).map (fun i =>
    if mask.getD i false then (sqrtPNew p is_token0 amts_in mask).getD i 0
    else p.sqrt_p_arr.getD i 0)

/-- The fee growth state write:
fee_growth_arr[mask] += fee_amts[mask] / self.liquidity_arr[mask]. -/
def feeGrowthUpd (p : Pool) (amts_in : List ℚ) (mask : List Bool) (arr : List ℚ) : List ℚ :=
  (List.range arr.length).map (fun i =>
    if mask.getD i false then
      arr.getD i 0 + (feeAmts p amts_in mask).getD i 0 / p.liquidity_arr.getD i 0
    else arr.getD i 0)

/-- Pool.swap: the assert is_exact_in (amt_desired > 0) is modelled by
Option; inside the branch is_exact_in is true, so the fee-growth selector
is_token0 == is_exact_in reduces to is_token0. Masked numpy writes become
index-wise constructions that keep the old entry outside the mask. -/
def Pool.swap (p : Pool) (is_token0 : Bool) (amt_desired : ℚ) :
    Option (SwapResult × Pool) :=
  if 0 < amt_desired then
    match p.calc_tier_amts_in is_token0 amt_desired with
    | none => none
    | some (amts_in, mask) =>
      some ({ amt_in := sumMasked mask amts_in
              amt_out := sumMasked mask (amtsOut p is_token0 amts_in mask)
              fee_amt := sumMasked mask (feeAmts p amts_in mask)
              fee_bps := sumMasked mask (feeAmts p amts_in mask) / sumMasked mask amts_in * 10000
              amts_in := amts_in
              amts_out := amtsOut p is_token0 amts_in mask
              fee_amts := feeAmts p amts_in mask },
            { p with
              sqrt_p_arr := sqrtPUpd p is_token0 amts_in mask
              fee0_growth_arr := if is_token0 then feeGrowthUpd p amts_in mask p.fee0_growth_arr
                                 else p.fee0_growth_arr
              fee1_growth_arr := if is_token0 then p.fee1_growth_arr
                                 else feeGrowthUpd p amts_in mask p.fee1_growth_arr })
  else none

/-- One swap call viewed as a state transition: a failing call (the assert
fires before any state is written) leaves the pool unchanged. -/
def Pool.swapStep (p : Pool) (op : Bool × ℚ) : Pool :=
  match p.swap op.1 op.2 with
  | some r => r.2
  | none => p

/-- A finite sequence of swap calls. -/
def Pool.swapMany (p : Pool) (ops : List (Bool × ℚ)) : Pool :=
  List.foldl Pool.swapStep p ops

/-- A well-formed pool state, per the data model of the spec: at least one
tier; all per-tier arrays index-aligned; liquidity and sqrt price strictly
positive; sqrt gamma in (0, 1]. -/
def Pool.Valid (p : Pool) : Prop :=
  0 < p.size ∧
  p.sqrt_gamma_arr.length = p.size ∧
  p.sqrt_p_arr.length = p.size ∧
  p.fee0_growth_arr.length = p.size ∧
  p.fee1_growth_arr.length = p.size ∧
  (∀ i, i < p.size → 0 < p.liquidity_arr.getD i 0) ∧
  (∀ i, i < p.size → 0 < p.sqrt_p_arr.getD i 0) ∧
  (∀ i, i < p.size → 0 < p.sqrt_gamma_arr.getD i 0 ∧ p.sqrt_gamma_arr.getD i 0 ≤ 1)

instance (p : Pool) : Decidable p.Valid := by
  unfold Pool.Valid
  exact inferInstance

lemma getD_replicate {α : Type} (n : Nat) (a : α) (i : Nat) (d : α) :
    (List.replicate n a).getD i d = if i < n then a else d := by
  rcases lt_or_le i n with h | h
  · rw [List.getD_eq_getElem?_getD, List.getElem?_replicate]
    simp [h]
  · rw [List.getD_eq_default]
    · simp [Nat.not_lt.mpr h]
    · simpa using h

lemma computeAmts_length (amount : ℚ) (ws rs : List ℚ) (mask : List Bool) :
    (computeAmts amount ws rs mask).length = ws.length := by
  simp [computeAmts]

lemma computeAmts_getD_masked (amount : ℚ) (ws rs : List ℚ) (mask : List Bool)
    (i : Nat) (hi : i < ws.length) (hm : mask.getD i false = true) :
    (computeAmts amount ws rs mask).getD i 0 =
      ws.getD i 0 * (amount + sumMasked mask rs) / sumMasked mask ws - rs.getD i 0 := by
  rw [computeAmts, getD_map_range, if_pos hi, if_pos hm]

lemma computeAmts_getD_unmasked (amount : ℚ) (ws rs : List ℚ) (mask : List Bool)
    (i : Nat) (hm : mask.getD i false = false) :
    (computeAmts amount ws rs mask).getD i 0 = 0 := by
  rw [computeAmts, getD_map_range]
  rcases lt_or_le i ws.length with h | h
  · rw [if_pos h, if_neg (by rw [hm]; exact Bool.false_ne_true)]
  · rw [if_neg (Nat.not_lt.mpr h)]

lemma computeAmts_getD_oob (amount : ℚ) (ws rs : List ℚ) (mask : List Bool)
    (i : Nat) (hi : ws.length ≤ i) :
    (computeAmts amount ws rs mask).getD i 0 = 0 := by
  rw [computeAmts, getD_map_range, if_neg (Nat.not_lt.mpr hi)]

lemma sumMasked_pos (mask : List Bool) (xs : List ℚ)
    (hpos : ∀ i, i < xs.length → mask.getD i false = true → 0 < xs.getD i 0)
    (i0 : Nat) (h0l : i0 < xs.length) (h0 : mask.getD i0 false = true) :
    0 < sumMasked mask xs := by
  unfold sumMasked
  apply Finset.sum_pos
  · intro i hi
    rw [Finset.mem_filter, Finset.mem_range] at hi
    exact hpos i hi.1 hi.2
  · exact ⟨i0, Finset.mem_filter.mpr ⟨Finset.mem_range.mpr h0l, h0⟩⟩

/-- The closed-form allocation over any active set sums exactly to the input
amount, provided the masked weight sum is nonzero. -/
lemma sumMasked_computeAmts (amount : ℚ) (ws rs : List ℚ) (mask : List Bool)
    (hlen : rs.length = ws.length) (hS : sumMasked mask ws ≠ 0) :
    sumMasked mask (computeAmts amount ws rs mask) = amount := by
  unfold sumMasked
  rw [computeAmts_length]
  have h1 : ∀ i ∈ (Finset.range ws.length).filter (fun i => mask.getD i false = true),
      (computeAmts amount ws rs mask).getD i 0 =
        ws.getD i 0 * ((amount + sumMasked mask rs) / sumMasked mask ws) - rs.getD i 0 := by
    intro i hi
    rw [Finset.mem_filter, Finset.mem_range] at hi
    rw [computeAmts_getD_masked amount ws rs mask i hi.1 hi.2, mul_div_assoc]
  rw [Finset.sum_congr rfl h1, Finset.sum_sub_distrib, ← Finset.sum_mul]
  have hSA : ∑ i in (Finset.range ws.length).filter (fun i => mask.getD i false = true),
      ws.getD i 0 = sumMasked mask ws := rfl
  have hRA : ∑ i in (Finset.range ws.length).filter (fun i => mask.getD i false = true),
      rs.getD i 0 = sumMasked mask rs := by
    unfold sumMasked
    rw [hlen]
  rw [hSA, hRA, mul_comm, div_mul_cancel₀ _ hS, add_sub_cancel_right]

/-- Unconditional structure of the loop result: the returned amounts are the
closed-form pass at the final mask, the final mask passes the non-negativity
check, and the mask length never changes. -/
lemma calcLoop_basic_aux (amount : ℚ) (ws rs : List ℚ) :
    ∀ (k : Nat) (mask : List Bool), maskCard mask ≤ k →
      (calcLoop amount ws rs mask).1
          = computeAmts amount ws rs (calcLoop amount ws rs mask).2 ∧
      allNonneg (calcLoop amount ws rs mask).2 (calcLoop amount ws rs mask).1 = true ∧
      (calcLoop amount ws rs mask).2.length = mask.length := by
  intro k
  induction k with
  | zero =>
    intro mask hm
    rw [calcLoop]
    by_cases h : allNonneg mask (computeAmts amount ws rs mask) = true
    · rw [if_pos h]
      exact ⟨rfl, h, rfl⟩
    · exfalso
      have := maskCard_pruneMask_lt mask _ (Bool.eq_false_iff.mpr h)
      omega
  | succ k ih =>
    intro mask hm
    rw [calcLoop]
    by_cases h : allNonneg mask (computeAmts amount ws rs mask) = true
    · rw [if_pos h]
      exact ⟨rfl, h, rfl⟩
    · rw [if_neg h]
      have hlt := maskCard_pruneMask_lt mask _ (Bool.eq_false_iff.mpr h)
      have hrec := ih (pruneMask mask (computeAmts amount ws rs mask)) (by omega)
      exact ⟨hrec.1, hrec.2.1, by rw [hrec.2.2, pruneMask_length]⟩

lemma calcLoop_basic (amount : ℚ) (ws rs : List ℚ) (mask : List Bool) :
    (calcLoop amount ws rs mask).1
        = computeAmts amount ws rs (calcLoop amount ws rs mask).2 ∧
    allNonneg (calcLoop amount ws rs mask).2 (calcLoop amount ws rs mask).1 = true ∧
    (calcLoop amount ws rs mask).2.length = mask.length :=
  calcLoop_basic_aux amount ws rs (maskCard mask) mask le_rfl

/-- Every entry of the returned amount array is non-negative. -/
lemma calcLoop_amts_nonneg (amount : ℚ) (ws rs : List ℚ) (mask : List Bool) (i : Nat) :
    0 ≤ (calcLoop amount ws rs mask).1.getD i 0 := by
  obtain ⟨heq, hall, -⟩ := calcLoop_basic amount ws rs mask
  rcases lt_or_le i ws.length with hi | hi
  · by_cases hm : (calcLoop amount ws rs mask).2.getD i false = true
    · have hilen : i < (calcLoop amount ws rs mask).1.length := by
        rw [heq, computeAmts_length]
        exact hi
      exact (allNonneg_eq_true_iff _ _).mp hall i hilen hm
    · rw [heq, computeAmts_getD_unmasked _ _ _ _ i (Bool.eq_false_iff.mpr hm)]
  · rw [heq, computeAmts_getD_oob _ _ _ _ i hi]

/-- Entries outside the final active mask are exactly zero. -/
lemma calcLoop_amts_unmasked (amount : ℚ) (ws rs : List ℚ) (mask : List Bool) (i : Nat)
    (hm : (calcLoop amount ws rs mask).2.getD i false = false) :
    (calcLoop amount ws rs mask).1.getD i 0 = 0 := by
  obtain ⟨heq, -, -⟩ := calcLoop_basic amount ws rs mask
  rw [heq, computeAmts_getD_unmasked _ _ _ _ i hm]

/-- With a non-negative input and strictly positive weights, the active set
never becomes empty: some active allocation is always non-negative, so the
pruning step keeps at least one tier. -/
lemma calcLoop_mask_nonempty_aux (amount : ℚ) (ws rs : List ℚ)
    (hamt : 0 ≤ amount) (hws : ∀ i, i < ws.length → 0 < ws.getD i 0)
    (hlen : rs.length = ws.length) :
    ∀ (k : Nat) (mask : List Bool), maskCard mask ≤ k →
      mask.length = ws.length → (∃ i, mask.getD i false = true) →
      (∃ i, (calcLoop amount ws rs mask).2.getD i false = true) := by
  intro k
  induction k with
  | zero =>
    intro mask hm hmlen hne
    rw [calcLoop]
    by_cases h : allNonneg mask (computeAmts amount ws rs mask) = true
    · rw [if_pos h]
      exact hne
    · exfalso
      have := maskCard_pruneMask_lt mask _ (Bool.eq_false_iff.mpr h)
      omega
  | succ k ih =>
    intro mask hm hmlen hne
    rw [calcLoop]
    by_cases h : allNonneg mask (computeAmts amount ws rs mask) = true
    · rw [if_pos h]
      exact hne
    · rw [if_neg h]
      obtain ⟨i0, hi0⟩ := hne
      have hi0l : i0 < mask.length := lt_length_of_getD_true mask i0 hi0
      have hS : 0 < sumMasked mask ws :=
        sumMasked_pos mask ws (fun i hi hmi => hws i hi) i0 (hmlen ▸ hi0l) hi0
      have hsum : sumMasked mask (computeAmts amount ws rs mask) = amount :=
        sumMasked_computeAmts amount ws rs mask hlen (ne_of_gt hS)
      have hnewne : ∃ i, (pruneMask mask (computeAmts amount ws rs mask)).getD i false = true := by
        by_contra hno
        push_neg at hno
        have hallneg : ∀ j ∈ (Finset.range (computeAmts amount ws rs mask).length).filter
            (fun j => mask.getD j false = true),
            (computeAmts amount ws rs mask).getD j 0 < 0 := by
          intro j hj
          rw [Finset.mem_filter, Finset.mem_range] at hj
          have hjm : j < mask.length := lt_length_of_getD_true mask j hj.2
          have hpj := hno j
          rw [pruneMask_getD, if_pos hjm, hj.2, Bool.true_and] at hpj
          have : decide (0 ≤ (computeAmts amount ws rs mask).getD j 0) = false :=
            Bool.eq_false_iff.mpr hpj
          exact not_le.mp (of_decide_eq_false this)
        have hneA : ((Finset.range (computeAmts amount ws rs mask).length).filter
            (fun j => mask.getD j false = true)).Nonempty := by
          refine ⟨i0, Finset.mem_filter.mpr ⟨Finset.mem_range.mpr ?_, hi0⟩⟩
          rw [computeAmts_length]
          exact hmlen ▸ hi0l
        have hneg : sumMasked mask (computeAmts amount ws rs mask) < 0 :=
          Finset.sum_neg hallneg hneA
        rw [hsum] at hneg
        exact absurd hneg (not_lt.mpr hamt)
      exact ih (pruneMask mask (computeAmts amount ws rs mask)) (by
          have := maskCard_pruneMask_lt mask _ (Bool.eq_false_iff.mpr h)
          omega)
        (by rw [pruneMask_length]; exact hmlen) hnewne

/-- Combined facts about the allocator loop on a well-formed input. -/
lemma calcLoop_invariant (amount : ℚ) (ws rs : List ℚ) (mask : List Bool)
    (hamt : 0 ≤ amount) (hws : ∀ i, i < ws.length → 0 < ws.getD i 0)
    (hlen : rs.length = ws.length) (hmlen : mask.length = ws.length)
    (hne : ∃ i, mask.getD i false = true) :
    (∃ i, (calcLoop amount ws rs mask).2.getD i false = true) ∧
    0 < sumMasked (calcLoop amount ws rs mask).2 ws ∧
    sumMasked (calcLoop amount ws rs mask).2 (calcLoop amount ws rs mask).1 = amount := by
  obtain ⟨heq, hall, hlenf⟩ := calcLoop_basic amount ws rs mask
  have hnef : ∃ i, (calcLoop amount ws rs mask).2.getD i false = true :=
    calcLoop_mask_nonempty_aux amount ws rs hamt hws hlen (maskCard mask) mask le_rfl hmlen hne
  obtain ⟨i0, hi0⟩ := hnef
  have hi0l : i0 < (calcLoop amount ws rs mask).2.length :=
    lt_length_of_getD_true _ i0 hi0
  have hS : 0 < sumMasked (calcLoop amount ws rs mask).2 ws := by
    refine sumMasked_pos _ ws (fun i hi _ => hws i hi) i0 ?_ hi0
    rw [← hmlen, ← hlenf]
    exact hi0l
  refine ⟨⟨i0, hi0⟩, hS, ?_⟩
  rw [heq]
  exact sumMasked_computeAmts amount ws rs _ hlen (ne_of_gt hS)

lemma lsg_length (p : Pool) : p.lsg.length = p.size := by
  simp [Pool.lsg]

lemma res_length (p : Pool) (t : Bool) : (p.res t).length = p.size := by
  simp [Pool.res]

lemma lsg_getD (p : Pool) (i : Nat) (hi : i < p.size) :
    p.lsg.getD i 0 = p.liquidity_arr.getD i 0 / p.sqrt_gamma_arr.getD i 0 := by
  rw [Pool.lsg, getD_map_range, if_pos hi]

lemma res_getD (p : Pool) (t : Bool) (i : Nat) (hi : i < p.size) :
    (p.res t).getD i 0 =
      if t then
        (p.liquidity_arr.getD i 0 / p.sqrt_p_arr.getD i 0) / (p.sqrt_gamma_arr.getD i 0) ^ 2
      else
        (p.liquidity_arr.getD i 0 * p.sqrt_p_arr.getD i 0) / (p.sqrt_gamma_arr.getD i 0) ^ 2 := by
  rw [Pool.res, getD_map_range, if_pos hi]

lemma lsg_pos (p : Pool) (hv : p.Valid) :
    ∀ i, i < p.lsg.length → 0 < p.lsg.getD i 0 := by
  obtain ⟨-, -, -, -, -, hL, -, hG⟩ := hv
  intro i hi
  rw [lsg_length] at hi
  rw [lsg_getD p i hi]
  exact div_pos (hL i hi) (hG i hi).1

lemma calc_tier_amts_in_eq (p : Pool) (t : Bool) (a : ℚ) (ha : 0 ≤ a) :
    p.calc_tier_amts_in t a =
      some (calcLoop a p.lsg (p.res t) (List.replicate p.size true)) := by
  rw [Pool.calc_tier_amts_in, if_pos ha]

/-- The per-tier input amounts the allocator produces for a swap. -/
def allocAmts (p : Pool) (t : Bool) (a : ℚ) : List ℚ :=
  (calcLoop a p.lsg (p.res t) (List.replicate p.size true)).1

/-- The final active mask the allocator produces for a swap. -/
def allocMask (p : Pool) (t : Bool) (a : ℚ) : List Bool :=
  (calcLoop a p.lsg (p.res t) (List.replicate p.size true)).2

/-- A successful swap, written out explicitly in terms of the allocator
output. -/
lemma swap_eq (p : Pool) (t : Bool) (a : ℚ) (ha : 0 < a) :
    p.swap t a =
      some ({ amt_in := sumMasked (allocMask p t a) (allocAmts p t a)
              amt_out := sumMasked (allocMask p t a) (amtsOut p t (allocAmts p t a) (allocMask p t a))
              fee_amt := sumMasked (allocMask p t a) (feeAmts p (allocAmts p t a) (allocMask p t a))
              fee_bps := sumMasked (allocMask p t a) (feeAmts p (allocAmts p t a) (allocMask p t a))
                / sumMasked (allocMask p t a) (allocAmts p t a) * 10000
              amts_in := allocAmts p t a
              amts_out := amtsOut p t (allocAmts p t a) (allocMask p t a)
              fee_amts := feeAmts p (allocAmts p t a) (allocMask p t a) },
            { p with
              sqrt_p_arr := sqrtPUpd p t (allocAmts p t a) (allocMask p t a)
              fee0_growth_arr :=
                if t then feeGrowthUpd p (allocAmts p t a) (allocMask p t a) p.fee0_growth_arr
                else p.fee0_growth_arr
              fee1_growth_arr :=
                if t then p.fee1_growth_arr
                else feeGrowthUpd p (allocAmts p t a) (allocMask p t a) p.fee1_growth_arr }) := by
  rw [Pool.swap, if_pos ha, calc_tier_amts_in_eq p t a (le_of_lt ha)]
  rfl

lemma amtsInAfterFee_getD_masked (p : Pool) (amts_in : List ℚ) (mask : List Bool)
    (i : Nat) (hi : i < p.size) (hm : mask.getD i false = true) :
    (amtsInAfterFee p amts_in mask).getD i 0 = amts_in.getD i 0 * p.gammaD i := by
  rw [amtsInAfterFee, getD_map_range, if_pos hi, if_pos hm]

lemma sqrtPNew_getD_masked (p : Pool) (t : Bool) (amts_in : List ℚ) (mask : List Bool)
    (i : Nat) (hi : i < p.size) (hm : mask.getD i false = true) :
    (sqrtPNew p t amts_in mask).getD i 0 =
      calc_sqrt_p_from_amt t (p.sqrt_p_arr.getD i 0) (p.liquidity_arr.getD i 0)
        (amts_in.getD i 0 * p.gammaD i) := by
  rw [sqrtPNew, getD_map_range, if_pos hi, if_pos hm,
    amtsInAfterFee_getD_masked p amts_in mask i hi hm]

lemma sqrtPUpd_length (p : Pool) (t : Bool) (amts_in : List ℚ) (mask : List Bool) :
    (sqrtPUpd p t amts_in mask).length = p.size := by
  simp [sqrtPUpd]

lemma sqrtPUpd_getD_masked (p : Pool) (t : Bool) (amts_in : List ℚ) (mask : List Bool)
    (i : Nat) (hi : i < p.size) (hm : mask.getD i false = true) :
    (sqrtPUpd p t amts_in mask).getD i 0 =
      calc_sqrt_p_from_amt t (p.sqrt_p_arr.getD i 0) (p.liquidity_arr.getD i 0)
        (amts_in.getD i 0 * p.gammaD i) := by
  rw [sqrtPUpd, getD_map_range, if_pos hi, if_pos hm,
    sqrtPNew_getD_masked p t amts_in mask i hi hm]

lemma sqrtPUpd_getD_unmasked (p : Pool) (t : Bool) (amts_in : List ℚ) (mask : List Bool)
    (i : Nat) (hi : i < p.size) (hm : mask.getD i false = false) :
    (sqrtPUpd p t amts_in mask).getD i 0 = p.sqrt_p_arr.getD i 0 := by
  rw [sqrtPUpd, getD_map_range, if_pos hi, if_neg (by rw [hm]; exact Bool.false_ne_true)]

lemma feeAmts_getD_masked (p : Pool) (amts_in : List ℚ) (mask : List Bool)
    (i : Nat) (hi : i < p.size) (hm : mask.getD i false = true) :
    (feeAmts p amts_in mask).getD i 0 =
      amts_in.getD i 0 - amts_in.getD i 0 * p.gammaD i := by
  rw [feeAmts, getD_map_range, if_pos hi, if_pos hm,
    amtsInAfterFee_getD_masked p amts_in mask i hi hm]

lemma feeAmts_nonneg (p : Pool) (amts_in : List ℚ) (mask : List Bool)
    (hg : ∀ i, i < p.size → 0 < p.sqrt_gamma_arr.getD i 0 ∧ p.sqrt_gamma_arr.getD i 0 ≤ 1)
    (hin : ∀ i, 0 ≤ amts_in.getD i 0) :
    ∀ i, 0 ≤ (feeAmts p amts_in mask).getD i 0 := by
  intro i
  rcases lt_or_le i p.size with hi | hi
  · by_cases hm : mask.getD i false = true
    · rw [feeAmts_getD_masked p amts_in mask i hi hm]
      rw [sub_nonneg]
      have hγ1 : p.gammaD i ≤ 1 :=
        pow_le_one₀ (le_of_lt (hg i hi).1) (hg i hi).2
      calc amts_in.getD i 0 * p.gammaD i
          ≤ amts_in.getD i 0 * 1 := mul_le_mul_of_nonneg_left hγ1 (hin i)
        _ = amts_in.getD i 0 := mul_one _
    · rw [feeAmts, getD_map_range, if_pos hi,
        if_neg (by rw [Bool.eq_false_iff.mpr hm]; exact Bool.false_ne_true)]
  · rw [feeAmts, getD_map_range, if_neg (Nat.not_lt.mpr hi)]

lemma feeGrowthUpd_length (p : Pool) (amts_in : List ℚ) (mask : List Bool) (arr : List ℚ) :
    (feeGrowthUpd p amts_in mask arr).length = arr.length := by
  simp [feeGrowthUpd]

lemma feeGrowthUpd_getD_masked (p : Pool) (amts_in : List ℚ) (mask : List Bool) (arr : List ℚ)
    (i : Nat) (hi : i < arr.length) (hm : mask.getD i false = true) :
    (feeGrowthUpd p amts_in mask arr).getD i 0 =
      arr.getD i 0 + (feeAmts p amts_in mask).getD i 0 / p.liquidity_arr.getD i 0 := by
  rw [feeGrowthUpd, getD_map_range, if_pos hi, if_pos hm]

lemma feeGrowthUpd_getD_unmasked (p : Pool) (amts_in : List ℚ) (mask : List Bool) (arr : List ℚ)
    (i : Nat) (hi : i < arr.length) (hm : mask.getD i false = false) :
    (feeGrowthUpd p amts_in mask arr).getD i 0 = arr.getD i 0 := by
  rw [feeGrowthUpd, getD_map_range, if_pos hi, if_neg (by rw [hm]; exact Bool.false_ne_true)]

lemma feeGrowthUpd_mono (p : Pool) (amts_in : List ℚ) (mask : List Bool) (arr : List ℚ)
    (hd : ∀ i, 0 ≤ (feeAmts p amts_in mask).getD i 0 / p.liquidity_arr.getD i 0) :
    ∀ i, arr.getD i 0 ≤ (feeGrowthUpd p amts_in mask arr).getD i 0 := by
  intro i
  rcases lt_or_le i arr.length with hi | hi
  · by_cases hm : mask.getD i false = true
    · rw [feeGrowthUpd_getD_masked p amts_in mask arr i hi hm]
      exact le_add_of_nonneg_right (hd i)
    · rw [feeGrowthUpd_getD_unmasked p amts_in mask arr i hi (Bool.eq_false_iff.mpr hm)]
  · rw [feeGrowthUpd, getD_map_range, if_neg (Nat.not_lt.mpr hi),
      List.getD_eq_default _ _ hi]

lemma maskCard_pos (mask : List Bool) (hne : ∃ i, mask.getD i false = true) :
    0 < maskCard mask := by
  obtain ⟨i, hi⟩ := hne
  exact Finset.card_pos.mpr
    ⟨i, Finset.mem_filter.mpr
      ⟨Finset.mem_range.mpr (lt_length_of_getD_true mask i hi), hi⟩⟩

lemma maskCard_replicate_true (n : Nat) : maskCard (List.replicate n true) = n := by
  unfold maskCard
  rw [List.length_replicate, Finset.filter_true_of_mem, Finset.card_range]
  intro i hi
  rw [getD_replicate, if_pos (Finset.mem_range.mp hi)]

/-- The non-terminal pruning step keeps the active set nonempty: the active
allocations sum to the non-negative input, so at least one is non-negative. -/
lemma pruneMask_nonempty (amount : ℚ) (ws rs : List ℚ) (mask : List Bool)
    (hamt : 0 ≤ amount) (hws : ∀ i, i < ws.length → 0 < ws.getD i 0)
    (hlen : rs.length = ws.length) (hmlen : mask.length = ws.length)
    (hne : ∃ i, mask.getD i false = true) :
    ∃ i, (pruneMask mask (computeAmts amount ws rs mask)).getD i false = true := by
  obtain ⟨i0, hi0⟩ := hne
  have hi0l : i0 < mask.length := lt_length_of_getD_true mask i0 hi0
  have hS : 0 < sumMasked mask ws :=
    sumMasked_pos mask ws (fun i hi hmi => hws i hi) i0 (hmlen ▸ hi0l) hi0
  have hsum : sumMasked mask (computeAmts amount ws rs mask) = amount :=
    sumMasked_computeAmts amount ws rs mask hlen (ne_of_gt hS)
  by_contra hno
  push_neg at hno
  have hallneg : ∀ j ∈ (Finset.range (computeAmts amount ws rs mask).length).filter
      (fun j => mask.getD j false = true),
      (computeAmts amount ws rs mask).getD j 0 < 0 := by
    intro j hj
    rw [Finset.mem_filter, Finset.mem_range] at hj
    have hjm : j < mask.length := lt_length_of_getD_true mask j hj.2
    have hpj := hno j
    rw [pruneMask_getD, if_pos hjm, hj.2, Bool.true_and] at hpj
    exact not_le.mp (of_decide_eq_false (Bool.eq_false_iff.mpr hpj))
  have hneA : ((Finset.range (computeAmts amount ws rs mask).length).filter
      (fun j => mask.getD j false = true)).Nonempty := by
    refine ⟨i0, Finset.mem_filter.mpr ⟨Finset.mem_range.mpr ?_, hi0⟩⟩
    rw [computeAmts_length]
    exact hmlen ▸ hi0l
  have hneg : sumMasked mask (computeAmts amount ws rs mask) < 0 :=
    Finset.sum_neg hallneg hneA
  rw [hsum] at hneg
  exact absurd hneg (not_lt.mpr hamt)

/-- Iteration count of the repair loop is at most the number of initially
active tiers, on any well-formed input with a nonempty starting mask. -/
lemma calcLoopCount_le_aux (amount : ℚ) (ws rs : List ℚ)
    (hamt : 0 ≤ amount) (hws : ∀ i, i < ws.length → 0 < ws.getD i 0)
    (hlen : rs.length = ws.length) :
    ∀ (k : Nat) (mask : List Bool), maskCard mask ≤ k →
      mask.length = ws.length → (∃ i, mask.getD i false = true) →
      calcLoopCount amount ws rs mask ≤ maskCard mask := by
  intro k
  induction k with
  | zero =>
    intro mask hm hmlen hne
    exfalso
    have := maskCard_pos mask hne
    omega
  | succ k ih =>
    intro mask hm hmlen hne
    rw [calcLoopCount]
    by_cases h : allNonneg mask (computeAmts amount ws rs mask) = true
    · rw [if_pos h]
      exact maskCard_pos mask hne
    · rw [if_neg h]
      have hlt := maskCard_pruneMask_lt mask _ (Bool.eq_false_iff.mpr h)
      have hpne := pruneMask_nonempty amount ws rs mask hamt hws hlen hmlen hne
      have hrec := ih (pruneMask mask (computeAmts amount ws rs mask)) (by omega)
        (by rw [pruneMask_length]; exact hmlen) hpne
      omega

lemma calc_sqrt_p_pos (t : Bool) (sp L x : ℚ) (hsp : 0 < sp) (hL : 0 < L) (hx : 0 ≤ x) :
    0 < calc_sqrt_p_from_amt t sp L x := by
  cases t
  · rw [calc_sqrt_p_from_amt, if_neg Bool.false_ne_true]
    exact add_pos_of_pos_of_nonneg hsp (div_nonneg hx (le_of_lt hL))
  · rw [calc_sqrt_p_from_amt, if_pos rfl]
    exact div_pos (mul_pos hL hsp)
      (add_pos_of_pos_of_nonneg hL (mul_nonneg hx (le_of_lt hsp)))

lemma calc_sqrt_p_lt (sp L x : ℚ) (hsp : 0 < sp) (hL : 0 < L) (hx : 0 < x) :
    calc_sqrt_p_from_amt true sp L x < sp := by
  rw [calc_sqrt_p_from_amt, if_pos rfl]
  have hd : 0 < L + x * sp := by positivity
  rw [div_lt_iff₀ hd]
  nlinarith [mul_pos hx (mul_pos hsp hsp)]

lemma calc_sqrt_p_gt (sp L x : ℚ) (hL : 0 < L) (hx : 0 < x) :
    sp < calc_sqrt_p_from_amt false sp L x := by
  rw [calc_sqrt_p_from_amt, if_neg Bool.false_ne_true]
  exact lt_add_of_pos_right sp (div_pos hx hL)

lemma feeAmts_getD_oob (p : Pool) (amts_in : List ℚ) (mask : List Bool)
    (i : Nat) (hi : p.size ≤ i) : (feeAmts p amts_in mask).getD i 0 = 0 := by
  rw [feeAmts, getD_map_range, if_neg (Nat.not_lt.mpr hi)]

/-- One successful swap preserves pool validity and never decreases either
fee growth accumulator; a failing swap is a no-op. -/
lemma swapStep_valid_mono (p : Pool) (hv : p.Valid) (op : Bool × ℚ) :
    (p.swapStep op).Valid ∧
    (∀ i, p.fee0_growth_arr.getD i 0 ≤ (p.swapStep op).fee0_growth_arr.getD i 0) ∧
    (∀ i, p.fee1_growth_arr.getD i 0 ≤ (p.swapStep op).fee1_growth_arr.getD i 0) := by
  obtain ⟨t, a⟩ := op
  rcases le_or_lt a 0 with ha | ha
  · have hnoop : p.swapStep (t, a) = p := by
      unfold Pool.swapStep
      rw [show p.swap t a = none from by rw [Pool.swap, if_neg (not_lt.mpr ha)]]
    rw [hnoop]
    exact ⟨hv, fun i => le_rfl, fun i => le_rfl⟩
  · have hstep : p.swapStep (t, a) =
        { p with
          sqrt_p_arr := sqrtPUpd p t (allocAmts p t a) (allocMask p t a)
          fee0_growth_arr :=
            if t then feeGrowthUpd p (allocAmts p t a) (allocMask p t a) p.fee0_growth_arr
            else p.fee0_growth_arr
          fee1_growth_arr :=
            if t then p.fee1_growth_arr
            else feeGrowthUpd p (allocAmts p t a) (allocMask p t a) p.fee1_growth_arr } := by
      unfold Pool.swapStep
      rw [swap_eq p t a ha]
    obtain ⟨hsz, hgl, hpl, hf0, hf1, hL, hP, hG⟩ := hv
    have hA : ∀ i, 0 ≤ (allocAmts p t a).getD i 0 := fun i =>
      calcLoop_amts_nonneg a p.lsg (p.res t) _ i
    have hfee : ∀ i, 0 ≤ (feeAmts p (allocAmts p t a) (allocMask p t a)).getD i 0 :=
      feeAmts_nonneg p _ _ hG hA
    have hd : ∀ i, 0 ≤ (feeAmts p (allocAmts p t a) (allocMask p t a)).getD i 0
        / p.liquidity_arr.getD i 0 := by
      intro i
      rcases lt_or_le i p.size with hi | hi
      · exact div_nonneg (hfee i) (le_of_lt (hL i hi))
      · rw [feeAmts_getD_oob p _ _ i hi, zero_div]
    have hmono := feeGrowthUpd_mono p (allocAmts p t a) (allocMask p t a)
    have hsize : (p.swapStep (t, a)).size = p.size := by
      rw [hstep]
      rfl
    refine ⟨?_, ?_, ?_⟩
    · rw [hstep]
      refine ⟨hsz, hgl, sqrtPUpd_length p t _ _, ?_, ?_, hL, ?_, hG⟩
      · cases t
        · exact hf0
        · exact (feeGrowthUpd_length p _ _ p.fee0_growth_arr).trans hf0
      · cases t
        · exact (feeGrowthUpd_length p _ _ p.fee1_growth_arr).trans hf1
        · exact hf1
      · intro i hi
        have hi' : i < p.size := hi
        show 0 < (sqrtPUpd p t (allocAmts p t a) (allocMask p t a)).getD i 0
        by_cases hm : (allocMask p t a).getD i false = true
        · rw [sqrtPUpd_getD_masked p t _ _ i hi' hm]
          exact calc_sqrt_p_pos t _ _ _ (hP i hi') (hL i hi')
            (mul_nonneg (hA i) (sq_nonneg _))
        · rw [sqrtPUpd_getD_unmasked p t _ _ i hi' (Bool.eq_false_iff.mpr hm)]
          exact hP i hi'
    · intro i
      rw [hstep]
      cases t
      · exact le_rfl
      · exact hmono p.fee0_growth_arr hd i
    · intro i
      rw [hstep]
      cases t
      · exact hmono p.fee1_growth_arr hd i
      · exact le_rfl

lemma swapMany_valid : ∀ (ops : List (Bool × ℚ)) (p : Pool), p.Valid → (p.swapMany ops).Valid
  | [], _, hv => hv
  | op :: ops, p, hv => by
    rw [Pool.swapMany, List.foldl_cons]
    exact swapMany_valid ops (p.swapStep op) (swapStep_valid_mono p hv op).1

/-- Concrete two-tier pool used to instantiate the claim theorems. -/
def witnessPool : Pool := Pool.init [1, 1] [1, 1] 1

/-- Claim C1: for every input amount at least 0 and every pool state with
positive liquidity and sqrt prices and sqrt gamma in (0, 1], at every
iteration of the tier allocator (that is, for every nonempty active mask of
the right length) the allocation computed for each active tier i equals
weight i times (amount plus the sum of active reserves) divided by the sum
of active weights, minus reserve i, with weight i = liquidity i / sqrt_gamma
i and reserve i the fee-adjusted virtual reserve of the sold token; and the
active allocations sum exactly to the input amount. -/
theorem tier_allocation_closed_form (p : Pool) (is_token0 : Bool) (amount : ℚ)
    (hv : p.Valid) (hamt : 0 ≤ amount) (mask : List Bool)
    (hmlen : mask.length = p.size) (hne : ∃ i, mask.getD i false = true) :
    (∀ i, i < p.size → mask.getD i false = true →
      (computeAmts amount p.lsg (p.res is_token0) mask).getD i 0 =
        (p.liquidity_arr.getD i 0 / p.sqrt_gamma_arr.getD i 0) *
          (amount + sumMasked mask (p.res is_token0)) / sumMasked mask p.lsg -
          (p.res is_token0).getD i 0) ∧
    (∀ i, i < p.size →
      p.lsg.getD i 0 = p.liquidity_arr.getD i 0 / p.sqrt_gamma_arr.getD i 0) ∧
    (∀ i, i < p.size →
      (p.res is_token0).getD i 0 =
        if is_token0 then
          (p.liquidity_arr.getD i 0 / p.sqrt_p_arr.getD i 0) / (p.sqrt_gamma_arr.getD i 0) ^ 2
        else
          (p.liquidity_arr.getD i 0 * p.sqrt_p_arr.getD i 0) / (p.sqrt_gamma_arr.getD i 0) ^ 2) ∧
    sumMasked mask (computeAmts amount p.lsg (p.res is_token0) mask) = amount := by
  obtain ⟨i0, hi0⟩ := hne
  have hS : 0 < sumMasked mask p.lsg :=
    sumMasked_pos mask p.lsg (fun i hi _ => lsg_pos p hv i hi) i0
      (by rw [lsg_length, ← hmlen]; exact lt_length_of_getD_true mask i0 hi0) hi0
  refine ⟨?_, fun i hi => lsg_getD p i hi, fun i hi => res_getD p is_token0 i hi, ?_⟩
  · intro i hi hm
    rw [computeAmts_getD_masked amount p.lsg (p.res is_token0) mask i
        (by rw [lsg_length]; exact hi) hm,
      lsg_getD p i hi]
  · exact sumMasked_computeAmts amount p.lsg (p.res is_token0) mask
      (by rw [res_length, lsg_length]) (ne_of_gt hS)

theorem tier_allocation_closed_form_witness :
    witnessPool.Valid ∧ (0 : ℚ) ≤ 3 ∧ [true, true].length = witnessPool.size ∧
    (∃ i, [true, true].getD i false = true) ∧
    ((∀ i, i < witnessPool.size → [true, true].getD i false = true →
      (computeAmts 3 witnessPool.lsg (witnessPool.res true) [true, true]).getD i 0 =
        (witnessPool.liquidity_arr.getD i 0 / witnessPool.sqrt_gamma_arr.getD i 0) *
          (3 + sumMasked [true, true] (witnessPool.res true)) /
            sumMasked [true, true] witnessPool.lsg -
          (witnessPool.res true).getD i 0) ∧
    (∀ i, i < witnessPool.size →
      witnessPool.lsg.getD i 0 =
        witnessPool.liquidity_arr.getD i 0 / witnessPool.sqrt_gamma_arr.getD i 0) ∧
    (∀ i, i < witnessPool.size →
      (witnessPool.res true).getD i 0 =
        if true then
          (witnessPool.liquidity_arr.getD i 0 / witnessPool.sqrt_p_arr.getD i 0) /
            (witnessPool.sqrt_gamma_arr.getD i 0) ^ 2
        else
          (witnessPool.liquidity_arr.getD i 0 * witnessPool.sqrt_p_arr.getD i 0) /
            (witnessPool.sqrt_gamma_arr.getD i 0) ^ 2) ∧
    sumMasked [true, true] (computeAmts 3 witnessPool.lsg (witnessPool.res true) [true, true])
      = 3) :=
  ⟨by decide, by decide, by decide, ⟨0, rfl⟩,
    tier_allocation_closed_form witnessPool true 3 (by decide) (by decide) [true, true]
      (by decide) ⟨0, rfl⟩⟩

/-- Claim C2: for every input amount at least 0 and every valid pool state,
the tier allocator returns a per-tier amount array whose every entry is
non-negative, with exactly zero for every tier excluded from the final
active mask. -/
theorem tier_amts_nonneg (p : Pool) (is_token0 : Bool) (amount : ℚ)
    (hv : p.Valid) (hamt : 0 ≤ amount) :
    ∃ amts mask, p.calc_tier_amts_in is_token0 amount = some (amts, mask) ∧
      (∀ i, 0 ≤ amts.getD i 0) ∧
      (∀ i, mask.getD i false = false → amts.getD i 0 = 0) := by
  refine ⟨allocAmts p is_token0 amount, allocMask p is_token0 amount, ?_, ?_, ?_⟩
  · rw [calc_tier_amts_in_eq p is_token0 amount hamt]
    rfl
  · exact fun i => calcLoop_amts_nonneg amount p.lsg (p.res is_token0) _ i
  · exact fun i h => calcLoop_amts_unmasked amount p.lsg (p.res is_token0) _ i h

theorem tier_amts_nonneg_witness :
    witnessPool.Valid ∧ (0 : ℚ) ≤ 3 ∧
    (∃ amts mask, witnessPool.calc_tier_amts_in true 3 = some (amts, mask) ∧
      (∀ i, 0 ≤ amts.getD i 0) ∧
      (∀ i, mask.getD i false = false → amts.getD i 0 = 0)) :=
  ⟨by decide, by decide, tier_amts_nonneg witnessPool true 3 (by decide) (by decide)⟩

/-- Claim C3: on every valid pool state and input amount at least 0, the
feasibility-repair loop terminates (calcLoopCount is a total function whose
recursion is justified exactly by the strict shrinking of the active set)
within at most tier_count iterations, and the active set strictly shrinks on
every non-terminal iteration. -/
theorem alloc_loop_terminates_within_tier_count (p : Pool) (is_token0 : Bool) (amount : ℚ)
    (hv : p.Valid) (hamt : 0 ≤ amount) :
    calcLoopCount amount p.lsg (p.res is_token0) (List.replicate p.size true) ≤ p.size ∧
    (∀ mask : List Bool,
      allNonneg mask (computeAmts amount p.lsg (p.res is_token0) mask) = false →
      maskCard (pruneMask mask (computeAmts amount p.lsg (p.res is_token0) mask))
        < maskCard mask) := by
  constructor
  · have h := calcLoopCount_le_aux amount p.lsg (p.res is_token0) hamt (lsg_pos p hv)
      (by rw [res_length, lsg_length]) (maskCard (List.replicate p.size true))
      (List.replicate p.size true) le_rfl
      (by rw [List.length_replicate, lsg_length])
      ⟨0, by rw [getD_replicate, if_pos hv.1]⟩
    rw [maskCard_replicate_true] at h
    exact h
  · exact fun mask h => maskCard_pruneMask_lt mask _ h

theorem alloc_loop_terminates_within_tier_count_witness :
    witnessPool.Valid ∧ (0 : ℚ) ≤ 3 ∧
    (calcLoopCount 3 witnessPool.lsg (witnessPool.res true)
        (List.replicate witnessPool.size true) ≤ witnessPool.size ∧
    (∀ mask : List Bool,
      allNonneg mask (computeAmts 3 witnessPool.lsg (witnessPool.res true) mask) = false →
      maskCard (pruneMask mask (computeAmts 3 witnessPool.lsg (witnessPool.res true) mask))
        < maskCard mask)) :=
  ⟨by decide, by decide,
    alloc_loop_terminates_within_tier_count witnessPool true 3 (by decide) (by decide)⟩

/-- Claim C4: for positive liquidity and sqrt price and non-negative input,
calc_sqrt_p_from_amt returns liquidity * sqrt_p0 / (liquidity + amt *
sqrt_p0) when selling token0 and sqrt_p0 + amt / liquidity when selling
token1; calc_amt_from_sqrt_p returns liquidity * (sqrt_p0 - sqrt_p1) /
(sqrt_p0 * sqrt_p1) for token0 owed and liquidity * (sqrt_p1 - sqrt_p0) for
token1 owed. -/
theorem price_algebra_formulas (liquidity sqrt_p0 sqrt_p1 amt : ℚ)
    (hl : 0 < liquidity) (hp : 0 < sqrt_p0) (ha : 0 ≤ amt) :
    calc_sqrt_p_from_amt true sqrt_p0 liquidity amt
        = liquidity * sqrt_p0 / (liquidity + amt * sqrt_p0) ∧
    calc_sqrt_p_from_amt false sqrt_p0 liquidity amt = sqrt_p0 + amt / liquidity ∧
    calc_amt_from_sqrt_p true sqrt_p0 sqrt_p1 liquidity
        = liquidity * (sqrt_p0 - sqrt_p1) / (sqrt_p0 * sqrt_p1) ∧
    calc_amt_from_sqrt_p false sqrt_p0 sqrt_p1 liquidity
        = liquidity * (sqrt_p1 - sqrt_p0) := by
  refine ⟨?_, ?_, ?_, ?_⟩
  · rw [calc_sqrt_p_from_amt, if_pos rfl]
  · rw [calc_sqrt_p_from_amt, if_neg Bool.false_ne_true]
  · rw [calc_amt_from_sqrt_p, if_pos rfl]
  · rw [calc_amt_from_sqrt_p, if_neg Bool.false_ne_true]

theorem price_algebra_formulas_witness :
    (0 : ℚ) < 2 ∧ (0 : ℚ) < 1 ∧ (0 : ℚ) ≤ 1 ∧
    (calc_sqrt_p_from_amt true 1 2 1 = 2 * 1 / (2 + 1 * 1) ∧
    calc_sqrt_p_from_amt false 1 2 1 = 1 + 1 / 2 ∧
    calc_amt_from_sqrt_p true 1 3 2 = 2 * (1 - 3) / (1 * 3) ∧
    calc_amt_from_sqrt_p false 1 3 2 = 2 * (3 - 1)) :=
  ⟨by decide, by decide, by decide,
    price_algebra_formulas 2 1 3 1 (by decide) (by decide) (by decide)⟩

/-- Claim C5: for every swap with positive input on a valid pool state,
every active tier receiving a strictly positive allocation has its sqrt
price strictly decreased when selling token0 and strictly increased when
selling token1. -/
theorem swap_price_monotone (p : Pool) (t : Bool) (a : ℚ) (hv : p.Valid) (ha : 0 < a) :
    ∃ r p', p.swap t a = some (r, p') ∧
      ∀ i, i < p.size → (allocMask p t a).getD i false = true →
        0 < r.amts_in.getD i 0 →
        (t = true → p'.sqrt_p_arr.getD i 0 < p.sqrt_p_arr.getD i 0) ∧
        (t = false → p.sqrt_p_arr.getD i 0 < p'.sqrt_p_arr.getD i 0) := by
  obtain ⟨hsz, hgl, hpl, hf0, hf1, hL, hP, hG⟩ := hv
  refine ⟨_, _, swap_eq p t a ha, ?_⟩
  intro i hi hm hpos
  have hpos' : 0 < (allocAmts p t a).getD i 0 := hpos
  have hx : 0 < (allocAmts p t a).getD i 0 * p.gammaD i :=
    mul_pos hpos' (pow_pos (hG i hi).1 2)
  constructor
  · rintro rfl
    show (sqrtPUpd p true (allocAmts p true a) (allocMask p true a)).getD i 0
        < p.sqrt_p_arr.getD i 0
    rw [sqrtPUpd_getD_masked p true _ _ i hi hm]
    exact calc_sqrt_p_lt _ _ _ (hP i hi) (hL i hi) hx
  · rintro rfl
    show p.sqrt_p_arr.getD i 0
        < (sqrtPUpd p false (allocAmts p false a) (allocMask p false a)).getD i 0
    rw [sqrtPUpd_getD_masked p false _ _ i hi hm]
    exact calc_sqrt_p_gt _ _ _ (hL i hi) hx

theorem swap_price_monotone_witness :
    witnessPool.Valid ∧ (0 : ℚ) < 3 ∧
    (∃ r p', witnessPool.swap true 3 = some (r, p') ∧
      ∀ i, i < witnessPool.size → (allocMask witnessPool true 3).getD i false = true →
        0 < r.amts_in.getD i 0 →
        (true = true → p'.sqrt_p_arr.getD i 0 < witnessPool.sqrt_p_arr.getD i 0) ∧
        (true = false → witnessPool.sqrt_p_arr.getD i 0 < p'.sqrt_p_arr.getD i 0)) :=
  ⟨by decide, by decide, swap_price_monotone witnessPool true 3 (by decide) (by decide)⟩

/-- Claim C6: a successful swap changes only the sqrt prices of active tiers
and, for those same tiers, the fee-growth accumulator of the sold token
(token0 accumulator when selling token0, token1 accumulator otherwise),
which gains fee_amts i / liquidity i; liquidity, sqrt gamma, the opposite
accumulator, and every field of inactive tiers are unchanged. -/
theorem swap_frame_effects (p : Pool) (t : Bool) (a : ℚ) (hv : p.Valid) (ha : 0 < a) :
    ∃ r p', p.swap t a = some (r, p') ∧
      p'.liquidity_arr = p.liquidity_arr ∧
      p'.sqrt_gamma_arr = p.sqrt_gamma_arr ∧
      (t = true → p'.fee1_growth_arr = p.fee1_growth_arr) ∧
      (t = false → p'.fee0_growth_arr = p.fee0_growth_arr) ∧
      (∀ i, i < p.size → (allocMask p t a).getD i false = false →
        p'.sqrt_p_arr.getD i 0 = p.sqrt_p_arr.getD i 0 ∧
        p'.fee0_growth_arr.getD i 0 = p.fee0_growth_arr.getD i 0 ∧
        p'.fee1_growth_arr.getD i 0 = p.fee1_growth_arr.getD i 0) ∧
      (∀ i, i < p.size → (allocMask p t a).getD i false = true →
        (t = true → p'.fee0_growth_arr.getD i 0
            = p.fee0_growth_arr.getD i 0
              + r.fee_amts.getD i 0 / p.liquidity_arr.getD i 0) ∧
        (t = false → p'.fee1_growth_arr.getD i 0
            = p.fee1_growth_arr.getD i 0
              + r.fee_amts.getD i 0 / p.liquidity_arr.getD i 0)) := by
  obtain ⟨hsz, hgl, hpl, hf0, hf1, hL, hP, hG⟩ := hv
  refine ⟨_, _, swap_eq p t a ha, rfl, rfl, ?_, ?_, ?_, ?_⟩
  · rintro rfl
    rfl
  · rintro rfl
    rfl
  · intro i hi hm
    refine ⟨?_, ?_, ?_⟩
    · show (sqrtPUpd p t (allocAmts p t a) (allocMask p t a)).getD i 0
          = p.sqrt_p_arr.getD i 0
      exact sqrtPUpd_getD_unmasked p t _ _ i hi hm
    · cases t
      · rfl
      · show (feeGrowthUpd p (allocAmts p true a) (allocMask p true a)
            p.fee0_growth_arr).getD i 0 = p.fee0_growth_arr.getD i 0
        exact feeGrowthUpd_getD_unmasked p _ _ p.fee0_growth_arr i
          (by rw [hf0]; exact hi) hm
    · cases t
      · show (feeGrowthUpd p (allocAmts p false a) (allocMask p false a)
            p.fee1_growth_arr).getD i 0 = p.fee1_growth_arr.getD i 0
        exact feeGrowthUpd_getD_unmasked p _ _ p.fee1_growth_arr i
          (by rw [hf1]; exact hi) hm
      · rfl
  · intro i hi hm
    constructor
    · rintro rfl
      show (feeGrowthUpd p (allocAmts p true a) (allocMask p true a)
          p.fee0_growth_arr).getD i 0
        = p.fee0_growth_arr.getD i 0
          + (feeAmts p (allocAmts p true a) (allocMask p true a)).getD i 0
            / p.liquidity_arr.getD i 0
      exact feeGrowthUpd_getD_masked p _ _ p.fee0_growth_arr i (by rw [hf0]; exact hi) hm
    · rintro rfl
      show (feeGrowthUpd p (allocAmts p false a) (allocMask p false a)
          p.fee1_growth_arr).getD i 0
        = p.fee1_growth_arr.getD i 0
          + (feeAmts p (allocAmts p false a) (allocMask p false a)).getD i 0
            / p.liquidity_arr.getD i 0
      exact feeGrowthUpd_getD_masked p _ _ p.fee1_growth_arr i (by rw [hf1]; exact hi) hm

theorem swap_frame_effects_witness :
    witnessPool.Valid ∧ (0 : ℚ) < 3 ∧
    (∃ r p', witnessPool.swap true 3 = some (r, p') ∧
      p'.liquidity_arr = witnessPool.liquidity_arr ∧
      p'.sqrt_gamma_arr = witnessPool.sqrt_gamma_arr ∧
      (true = true → p'.fee1_growth_arr = witnessPool.fee1_growth_arr) ∧
      (true = false → p'.fee0_growth_arr = witnessPool.fee0_growth_arr) ∧
      (∀ i, i < witnessPool.size → (allocMask witnessPool true 3).getD i false = false →
        p'.sqrt_p_arr.getD i 0 = witnessPool.sqrt_p_arr.getD i 0 ∧
        p'.fee0_growth_arr.getD i 0 = witnessPool.fee0_growth_arr.getD i 0 ∧
        p'.fee1_growth_arr.getD i 0 = witnessPool.fee1_growth_arr.getD i 0) ∧
      (∀ i, i < witnessPool.size → (allocMask witnessPool true 3).getD i false = true →
        (true = true → p'.fee0_growth_arr.getD i 0
            = witnessPool.fee0_growth_arr.getD i 0
              + r.fee_amts.getD i 0 / witnessPool.liquidity_arr.getD i 0) ∧
        (true = false → p'.fee1_growth_arr.getD i 0
            = witnessPool.fee1_growth_arr.getD i 0
              + r.fee_amts.getD i 0 / witnessPool.liquidity_arr.getD i 0))) :=
  ⟨by decide, by decide, swap_frame_effects witnessPool true 3 (by decide) (by decide)⟩

/-- Claim C7: swap fails exactly when the requested amount is non-positive
(the assert amount_in > 0 fires), and a failing call leaves the pool state
— sqrt prices and both fee-growth accumulators — exactly as it was. -/
theorem swap_fails_iff_nonpositive (p : Pool) (t : Bool) (a : ℚ) :
    (p.swap t a = none ↔ a ≤ 0) ∧ (a ≤ 0 → p.swapStep (t, a) = p) := by
  have hnone : a ≤ 0 → p.swap t a = none := fun h => by
    rw [Pool.swap, if_neg (not_lt.mpr h)]
  refine ⟨⟨?_, hnone⟩, ?_⟩
  · intro h
    by_contra hc
    rw [swap_eq p t a (not_le.mp hc)] at h
    exact Option.noConfusion h
  · intro h
    show (match p.swap t a with | some r => r.2 | none => p) = p
    rw [hnone h]

theorem swap_fails_iff_nonpositive_witness :
    (witnessPool.swap true (-1) = none ↔ (-1 : ℚ) ≤ 0) ∧
    ((-1 : ℚ) ≤ 0 → witnessPool.swapStep (true, -1) = witnessPool) :=
  swap_fails_iff_nonpositive witnessPool true (-1)

/-- Claim C8: starting from a valid pool, along any finite sequence of swap
calls every entry of both fee-growth accumulators is non-decreasing from
each step to the next, and both accumulators start at zero at
construction. -/
theorem fee_growth_monotone (p : Pool) (hv : p.Valid) (ops : List (Bool × ℚ)) (k : Nat) :
    (∀ i, (p.swapMany (List.take k ops)).fee0_growth_arr.getD i 0
        ≤ (p.swapMany (List.take (k + 1) ops)).fee0_growth_arr.getD i 0) ∧
    (∀ i, (p.swapMany (List.take k ops)).fee1_growth_arr.getD i 0
        ≤ (p.swapMany (List.take (k + 1) ops)).fee1_growth_arr.getD i 0) ∧
    (∀ (L G : List ℚ) (s : ℚ),
      (Pool.init L G s).fee0_growth_arr = List.replicate L.length 0 ∧
      (Pool.init L G s).fee1_growth_arr = List.replicate L.length 0) := by
  have hq : (p.swapMany (List.take k ops)).Valid := swapMany_valid _ p hv
  have hstep := swapStep_valid_mono (p.swapMany (List.take k ops)) hq
  rcases Nat.lt_or_ge k ops.length with hk | hk
  · have htake : List.take (k + 1) ops = List.take k ops ++ [ops[k]] := by
      rw [List.take_succ, List.getElem?_eq_getElem hk]
      rfl
    have hm : p.swapMany (List.take (k + 1) ops)
        = (p.swapMany (List.take k ops)).swapStep ops[k] := by
      rw [htake, Pool.swapMany, List.foldl_append]
      rfl
    refine ⟨?_, ?_, fun L G s => ⟨rfl, rfl⟩⟩
    · intro i
      rw [hm]
      exact (hstep ops[k]).2.1 i
    · intro i
      rw [hm]
      exact (hstep ops[k]).2.2 i
  · have heq : List.take (k + 1) ops = List.take k ops := by
      rw [List.take_of_length_le hk, List.take_of_length_le (by omega)]
    rw [heq]
    exact ⟨fun i => le_rfl, fun i => le_rfl, fun L G s => ⟨rfl, rfl⟩⟩

theorem fee_growth_monotone_witness :
    witnessPool.Valid ∧
    ((∀ i, (witnessPool.swapMany (List.take 0 [(true, (1 : ℚ))])).fee0_growth_arr.getD i 0
        ≤ (witnessPool.swapMany (List.take 1 [(true, (1 : ℚ))])).fee0_growth_arr.getD i 0) ∧
    (∀ i, (witnessPool.swapMany (List.take 0 [(true, (1 : ℚ))])).fee1_growth_arr.getD i 0
        ≤ (witnessPool.swapMany (List.take 1 [(true, (1 : ℚ))])).fee1_growth_arr.getD i 0) ∧
    (∀ (L G : List ℚ) (s : ℚ),
      (Pool.init L G s).fee0_growth_arr = List.replicate L.length 0 ∧
      (Pool.init L G s).fee1_growth_arr = List.replicate L.length 0)) :=
  ⟨by decide, fee_growth_monotone witnessPool (by decide) [(true, 1)] 0⟩

/-- Claim C9 counterexample: Pool construction performs no validation. With
a non-positive liquidity entry, sqrt gamma values outside (0, 1], mismatched
array lengths and a negative initial sqrt price, a Pool object is still
created, holding exactly those invalid values. -/
theorem pool_init_accepts_invalid_state :
    (Pool.init [(-1 : ℚ)] [(2 : ℚ), (3 : ℚ)] (-5)).liquidity_arr = [(-1 : ℚ)] ∧
    (Pool.init [(-1 : ℚ)] [(2 : ℚ), (3 : ℚ)] (-5)).sqrt_gamma_arr = [(2 : ℚ), (3 : ℚ)] ∧
    (Pool.init [(-1 : ℚ)] [(2 : ℚ), (3 : ℚ)] (-5)).sqrt_p_arr = [(-5 : ℚ)] ∧
    ¬ (Pool.init [(-1 : ℚ)] [(2 : ℚ), (3 : ℚ)] (-5)).Valid :=
  ⟨rfl, rfl, rfl, by decide⟩

/-- Claim C9 amended: Pool construction never fails and performs no
validation; for any liquidity array, sqrt gamma array and initial sqrt
price — mismatched lengths and out-of-range values included — a Pool is
created whose liquidity and sqrt gamma arrays are exactly the supplied ones,
with the sqrt price array uniform at the supplied price and both fee-growth
accumulators zero, all sized to the liquidity array. -/
theorem pool_init_unchecked (L G : List ℚ) (s : ℚ) :
    (Pool.init L G s).liquidity_arr = L ∧
    (Pool.init L G s).sqrt_gamma_arr = G ∧
    (Pool.init L G s).sqrt_p_arr = List.replicate L.length s ∧
    (Pool.init L G s).fee0_growth_arr = List.replicate L.length 0 ∧
    (Pool.init L G s).fee1_growth_arr = List.replicate L.length 0 :=
  ⟨rfl, rfl, rfl, rfl, rfl⟩

/-- Claim C10: on every valid pool state and input amount at least 0, the
allocator final active mask is nonempty, the masked weight sum (the divisor
of the closed form) is strictly positive, the active allocations sum to the
input, and for a strictly positive input the swap aggregate amt_in equals
the input and is strictly positive, so the fee_bps division is
well-defined. -/
theorem alloc_active_mask_nonempty (p : Pool) (t : Bool) (a : ℚ)
    (hv : p.Valid) (ha : 0 ≤ a) :
    ∃ amts mask, p.calc_tier_amts_in t a = some (amts, mask) ∧
      (∃ i, i < p.size ∧ mask.getD i false = true) ∧
      0 < sumMasked mask p.lsg ∧
      sumMasked mask amts = a ∧
      (0 < a → ∃ r p', p.swap t a = some (r, p') ∧ r.amt_in = a ∧ 0 < r.amt_in) := by
  have hws := lsg_pos p hv
  have hlen : (p.res t).length = p.lsg.length := by
    rw [res_length, lsg_length]
  have hmlen : (List.replicate p.size true).length = p.lsg.length := by
    rw [List.length_replicate, lsg_length]
  have hne : ∃ i, (List.replicate p.size true).getD i false = true :=
    ⟨0, by rw [getD_replicate, if_pos hv.1]⟩
  obtain ⟨hnef, hS, hsum⟩ :=
    calcLoop_invariant a p.lsg (p.res t) (List.replicate p.size true) ha hws hlen hmlen hne
  refine ⟨allocAmts p t a, allocMask p t a, ?_, ?_, hS, hsum, ?_⟩
  · rw [calc_tier_amts_in_eq p t a ha]
    rfl
  · obtain ⟨i, hi⟩ := hnef
    refine ⟨i, ?_, hi⟩
    have hil : i < (allocMask p t a).length := lt_length_of_getD_true _ i hi
    have hml : (allocMask p t a).length = p.size := by
      have := (calcLoop_basic a p.lsg (p.res t) (List.replicate p.size true)).2.2
      rw [List.length_replicate] at this
      exact this
    rw [hml] at hil
    exact hil
  · intro ha'
    refine ⟨_, _, swap_eq p t a ha', hsum, ?_⟩
    exact lt_of_lt_of_eq ha' hsum.symm

theorem alloc_active_mask_nonempty_witness :
    witnessPool.Valid ∧ (0 : ℚ) ≤ 3 ∧
    (∃ amts mask, witnessPool.calc_tier_amts_in true 3 = some (amts, mask) ∧
      (∃ i, i < witnessPool.size ∧ mask.getD i false = true) ∧
      0 < sumMasked mask witnessPool.lsg ∧
      sumMasked mask amts = 3 ∧
      ((0 : ℚ) < 3 → ∃ r p', witnessPool.swap true 3 = some (r, p') ∧
        r.amt_in = 3 ∧ 0 < r.amt_in)) :=
  ⟨by decide, by decide, alloc_active_mask_nonempty witnessPool true 3 (by decide) (by decide)⟩

end Muffin
